import Mathlib

/-!
# Verification of the Product-Review-Analyzer string pipeline

Shallow embedding of the pure string-processing kernel of the repository
(`src/Full_Code.py`, `src/fullcode_AF.py`): text normalisation (`clean_text`),
ASIN extraction (`extract_asin`), the Gemini CLI wrapper (`call_gemini`), the
summary-section parsing loop of `analyze_reviews_with_gemini`, the
product-title matching loops of `submit` / `submit_scraper`, and the review
pagination loop of `scrape_amazon_reviews`.

Python strings are modelled as Lean `String`s (lists of Unicode code points);
Python's whitespace-sensitive primitives (`str.strip`, `str.split`,
`str.splitlines`, `re` character classes) are modelled on `List Char`.
`str.lower` is modelled on ASCII (the inputs the program feeds it are ASCII,
and inside `clean_text` the preceding substitution removes every non-ASCII
character before `lower` runs).
-/

namespace PRA

/-! ## Definitions: shallow embedding of the source -/

/-- Code points that Python's `str.strip()` (and the `re` class `\s` on `str`
patterns) treat as whitespace: ASCII whitespace, the C1 separators, and the
Unicode space separators. -/
def pyWsCodes : List Nat :=
  [9, 10, 11, 12, 13, 28, 29, 30, 31, 32, 133, 160, 5760,
   8192, 8193, 8194, 8195, 8196, 8197, 8198, 8199, 8200, 8201, 8202,
   8232, 8233, 8239, 8287, 12288]

/-- Whitespace test used by `str.strip()` and `\s`. -/
def pyWs (c : Char) : Bool := decide (c.toNat ∈ pyWsCodes)

/-- Python `str.strip()` on a list of characters: drop whitespace from the
front, then from the back. -/
def pyStripList (l : List Char) : List Char :=
  List.rdropWhile pyWs (l.dropWhile pyWs)

/-- Python `str.strip()`. -/
def pyStrip (s : String) : String := ⟨pyStripList s.data⟩

/-- Characters kept by `re.sub(r"[^a-zA-Z0-9\s]", "", ...)` in `clean_text`:
the class `a-z` (97-122), `A-Z` (65-90), `0-9` (48-57) and `\s`. -/
def keepChar (c : Char) : Bool :=
  (65 ≤ c.toNat && c.toNat ≤ 90) || (97 ≤ c.toNat && c.toNat ≤ 122) ||
    (48 ≤ c.toNat && c.toNat ≤ 57) || pyWs c

/-- ASCII model of Python `str.lower()` on one character: map `A`-`Z`
(code 65-90) to `a`-`z` (code 97-122), leave everything else unchanged. -/
def pyLowerChar (c : Char) : Char :=
  if 65 ≤ c.toNat && c.toNat ≤ 90 then Char.ofNat (c.toNat + 32) else c

/-- ASCII model of Python `str.lower()`. -/
def pyLower (s : String) : String := ⟨s.data.map pyLowerChar⟩

/-- `clean_text` from `src/Full_Code.py` lines 40-41 (= `src/fullcode_AF.py`
lines 39-40): `re.sub(r"[^a-zA-Z0-9\s]", "", text).lower().strip()`. -/
def clean_text (s : String) : String :=
  pyStrip ⟨(s.data.filter keepChar).map pyLowerChar⟩

/-- Python's substring test `pat in s`, on lists of characters: `pat` is a
prefix of some suffix of `s`. -/
def listContains (pat : List Char) : List Char → Bool
  | [] => pat.isEmpty
  | l@(_ :: rest) => pat.isPrefixOf l || listContains pat rest

/-- The normalized substring condition of the matching loops:
`clean_text(user_product) in clean_text(title)`
(src/Full_Code.py line 683, src/fullcode_AF.py lines 395 and 425). -/
def titleMatches (query title : String) : Bool :=
  listContains (clean_text query).data (clean_text title).data

/-- The Amazon product-search loop over candidate titles in document order
(src/fullcode_AF.py lines 389-400): accept the first candidate whose title
passes the normalized substring test. -/
def amazonMatch (query : String) (titles : List String) : Option String :=
  titles.find? (fun t => titleMatches query t)

/-- The Flipkart product-search loop (src/fullcode_AF.py lines 423-428,
src/Full_Code.py lines 703-710): same, except that a candidate whose `title`
attribute is falsy (empty) is skipped (`if title and clean_text(...) in ...`). -/
def flipkartMatch (query : String) (titles : List String) : Option String :=
  titles.find? (fun t => !(t == "") && titleMatches query t)

/-- Outcome of the search phase of `submit` / `submit_scraper`: the scrape
runs only when a candidate matched, else the run reports
"No product matched the input." and ends without scraping. -/
inductive SearchOutcome where
  | scrape (title : String)
  | reportNoMatch
  deriving DecidableEq

/-- `if matched_url: ... scrape ... else: safe_print("[Amazon] No product
matched the input.")` (src/fullcode_AF.py lines 402-406). -/
def submitSearchPhase (query : String) (titles : List String) : SearchOutcome :=
  match amazonMatch query titles with
  | some t => .scrape t
  | none => .reportNoMatch

/-- The character class `[A-Z0-9]` of the ASIN regexes
(65-90 = `A`-`Z`, 48-57 = `0`-`9`). -/
def isAsinChar (c : Char) : Bool :=
  (65 ≤ c.toNat && c.toNat ≤ 90) || (48 ≤ c.toNat && c.toNat ≤ 57)

/-- Match `([A-Z0-9]{10})` at the current position: succeed exactly when the
next ten characters exist and are all in the class, capturing them. -/
def grab10 (l : List Char) : Option (List Char) :=
  if (l.take 10).length = 10 && (l.take 10).all isAsinChar
    then some (l.take 10) else none

/-- Attempt of `re.search(r"/(?:dp|gp/product)/([A-Z0-9]{10})", ...)` at a
single position (the two alternation branches differ at their second
character, so at most one can apply). -/
def matchDpGpAt (l : List Char) : Option (List Char) :=
  if "/dp/".data.isPrefixOf l then grab10 (l.drop 4)
  else if "/gp/product/".data.isPrefixOf l then grab10 (l.drop 12)
  else none

/-- Attempt of `re.search(r"asin=([A-Z0-9]{10})", ...)` at a single
position. -/
def matchAsinEqAt (l : List Char) : Option (List Char) :=
  if "asin=".data.isPrefixOf l then grab10 (l.drop 5) else none

/-- `re.search` scanning: try the position-matcher `f` at every position from
left to right (i.e. on every suffix, longest first) and return the first
success. -/
def reSearch (f : List Char → Option (List Char)) : List Char → Option (List Char)
  | [] => f []
  | l@(_ :: rest) =>
    match f l with
    | some t => some t
    | none => reSearch f rest

/-- Python `url.split("/")`: split at every separator, keeping empty fields. -/
def splitSlashAux (acc : List Char) : List Char → List (List Char)
  | [] => [acc.reverse]
  | c :: rest =>
    if c = '/' then acc.reverse :: splitSlashAux [] rest
    else splitSlashAux (c :: acc) rest

def splitSlash (l : List Char) : List (List Char) := splitSlashAux [] l

/-- `re.match(r"^[A-Z0-9]{10}$", seg)`: the whole segment is ten class
characters (`$` in Python also matches just before one trailing newline). -/
def fullAsinSeg (seg : List Char) : Bool :=
  (seg.length == 10 && seg.all isAsinChar) ||
    (seg.length == 11 && (seg.take 10).all isAsinChar && seg.getLast? == some '\n')

/-- `extract_asin` from src/Full_Code.py lines 53-65: try the
`/dp/`-or-`/gp/product/` path pattern, then the `asin=` query-parameter
pattern, then scan the `/`-separated segments in reverse for a bare
ten-character token; `None` when all three fail. -/
def extract_asin (url : String) : Option String :=
  match reSearch matchDpGpAt url.data with
  | some tok => some ⟨tok⟩
  | none =>
    match reSearch matchAsinEqAt url.data with
    | some tok => some ⟨tok⟩
    | none =>
      match (splitSlash url.data).reverse.find? fullAsinSeg with
      | some seg => some ⟨seg⟩
      | none => none

/-- Ten uppercase-alphanumeric characters. -/
def asinToken (t : List Char) : Prop :=
  t.length = 10 ∧ ∀ c ∈ t, isAsinChar c = true

/-- Pattern (a) at a position: the suffix starts with `/dp/` or
`/gp/product/` immediately followed by the ten-character token `t`. -/
def dpTokenAt (s t : List Char) : Prop :=
  asinToken t ∧
    ((∃ rest, s = "/dp/".data ++ t ++ rest) ∨
      (∃ rest, s = "/gp/product/".data ++ t ++ rest))

/-- Pattern (b) at a position: the suffix starts with `asin=` immediately
followed by the ten-character token `t`. -/
def asinParamAt (s t : List Char) : Prop :=
  asinToken t ∧ ∃ rest, s = "asin=".data ++ t ++ rest

/-- One parsed review block: the four `review.find(...)` element lookups of
src/Full_Code.py lines 378-381 (`none` = element absent, `some txt` = element
present with raw text `txt`). -/
structure ReviewBlock where
  profileName : Option String
  starRating : Option String
  reviewDate : Option String
  reviewBody : Option String
  deriving DecidableEq

/-- `safe_text` (src/Full_Code.py lines 37-38):
`tag.text.strip() if tag else ""`. -/
def safe_text : Option String → String
  | some t => pyStrip t
  | none => ""

/-- Python's `x or default` on strings: the default replaces a falsy (empty)
string. -/
def pyOrDefault (s dflt : String) : String := if s = "" then dflt else s

/-- One row of the collected review table (src/Full_Code.py lines 374-382). -/
structure ReviewRecord where
  product_name : String
  overall_rating : String
  total_ratings : String
  reviewer_name : String
  star_rating : String
  review_date : String
  review_body : String
  deriving DecidableEq

/-- Build one record from a review block (src/Full_Code.py lines 373-382). -/
def mkRecord (pname rating total : String) (b : ReviewBlock) : ReviewRecord :=
  { product_name := pname,
    overall_rating := rating,
    total_ratings := total,
    reviewer_name := pyOrDefault (safe_text b.profileName) "Anonymous",
    star_rating := pyOrDefault (safe_text b.starRating) "N/A",
    review_date := pyOrDefault (safe_text b.reviewDate) "N/A",
    review_body := pyOrDefault (safe_text b.reviewBody) "No Content" }

/-- Python `str.split()` with no argument: split on whitespace runs,
discarding empty fields. -/
def pySplitWsAux (acc : List Char) : List Char → List (List Char)
  | [] => if acc.isEmpty then [] else [acc.reverse]
  | c :: rest =>
    if pyWs c then
      if acc.isEmpty then pySplitWsAux [] rest
      else acc.reverse :: pySplitWsAux [] rest
    else pySplitWsAux (c :: acc) rest

def pySplitWs (l : List Char) : List (List Char) := pySplitWsAux [] l

/-- `rating_span.get_text(strip=True).split()[0] if rating_span else "N/A"`
(src/Full_Code.py lines 327-328). The `[0]` raises `IndexError` when the
element is present but its text is all whitespace; that fallible access is
modelled with `Except`. -/
def overallRatingText (ratingSpan : Option String) : Except Unit String :=
  match ratingSpan with
  | none => .ok "N/A"
  | some txt =>
    match pySplitWs (pyStrip txt).data with
    | [] => .error ()
    | w :: _ => .ok ⟨w⟩

/-- `reviews_span.get_text(strip=True) if reviews_span else "N/A"`
(src/Full_Code.py lines 329-330). -/
def totalRatingsText (reviewsSpan : Option String) : String :=
  match reviewsSpan with
  | none => "N/A"
  | some txt => pyStrip txt

/-- One reviews page as the pagination loop sees it: its review blocks and
whether `li.a-last` still contains an `a` (a usable "next" control). -/
structure ReviewPage where
  blocks : List ReviewBlock
  hasNext : Bool
  deriving DecidableEq

/-- The pagination loop of `scrape_amazon_reviews` (src/Full_Code.py lines
363-389): `while page_count <= MAX_PAGES`, read the current page's review
blocks, stop if there are none, append one record per block, then follow the
"next" control if present, else stop. `env i` is the page shown after `i`
"next" clicks; `fuel` is the number of loop iterations still allowed
(`MAX_PAGES - page_count + 1`, so `MAX_PAGES` at entry). Returns the
collected records and the number of pages read. -/
def amazonPaginate (pname rating total : String) (env : Nat → ReviewPage) :
    Nat → Nat → List ReviewRecord × Nat
  | 0, _ => ([], 0)
  | fuel + 1, idx =>
    let p := env idx
    if p.blocks.isEmpty then ([], 1)
    else
      let recs := p.blocks.map (mkRecord pname rating total)
      if p.hasNext then
        let rest := amazonPaginate pname rating total env fuel (idx + 1)
        (recs ++ rest.1, rest.2 + 1)
      else (recs, 1)

/-- Observable effects of one `scrape_amazon_reviews` call: the returned
record list and the rows written to the CSV (`none` = no write, the code
prints "[Amazon] No reviews found." instead). -/
structure ScrapeEffects where
  returned : List ReviewRecord
  csvWritten : Option (List ReviewRecord)
  deriving DecidableEq

/-- `scrape_amazon_reviews` (src/Full_Code.py lines 319-323 and 353-396):
abort with an empty result when no ASIN can be extracted, otherwise run the
pagination loop and write the CSV only when at least one record was
collected. -/
def scrape_amazon_reviews (url pname rating total : String)
    (env : Nat → ReviewPage) (maxPages : Nat) : ScrapeEffects :=
  match extract_asin url with
  | none => { returned := [], csvWritten := none }
  | some _ =>
    let collected := (amazonPaginate pname rating total env maxPages 0).1
    { returned := collected,
      csvWritten := if collected.isEmpty then none else some collected }

/-- `if collected_reviews: analyze_reviews_with_gemini() else: safe_print(
"[INFO] Skipping Gemini analysis since no reviews were found.")`
(src/Full_Code.py lines 723-726). -/
def geminiAnalysisRuns (collected_reviews : List ReviewRecord) : Bool :=
  !collected_reviews.isEmpty

/-- `P` matches at the position of suffix `s`, and at no earlier position
(earlier position = longer suffix). -/
def leftmostMatch (P : List Char → List Char → Prop) (l t : List Char) : Prop :=
  ∃ s, s <:+ l ∧ P s t ∧ ∀ s' t', s' <:+ l → s.length < s'.length → ¬P s' t'

/-- `P` matches at no position of `l`. -/
def noMatch (P : List Char → List Char → Prop) (l : List Char) : Prop :=
  ∀ s t, s <:+ l → ¬P s t

/-- Outcome of `subprocess.run([GEMINI_PATH], input=prompt, ...)`: either the
process ran to completion (return code, stdout, stderr) or the invocation
itself raised an exception. -/
inductive ProcOutcome where
  | ran (returncode : Int) (stdout stderr : String)
  | raised (message : String)
  deriving DecidableEq

/-- `call_gemini` (src/Full_Code.py lines 68-83 = src/fullcode_AF.py lines
60-75): stripped stdout on exit status 0, `"Error: " + stderr.strip()` on a
non-zero status, `"CLI call failed: " + str(e)` when the invocation raises.
Every branch returns a string; no exception escapes. -/
def call_gemini (outcome : ProcOutcome) : String :=
  match outcome with
  | .ran rc out err => if rc = 0 then pyStrip out else "Error: " ++ pyStrip err
  | .raised e => "CLI call failed: " ++ e

/-- Line separators recognised by Python `str.splitlines()` other than
`\r` / `\r\n` (which are handled separately): `\n`, `\v`, `\f`, the
file/group/record separators, `\x85`, and the Unicode line/paragraph
separators. -/
def lineSep (c : Char) : Bool :=
  c = '\n' || c = Char.ofNat 11 || c = Char.ofNat 12 || c = Char.ofNat 28 ||
    c = Char.ofNat 29 || c = Char.ofNat 30 || c = Char.ofNat 133 ||
    c = Char.ofNat 8232 || c = Char.ofNat 8233

/-- Python `str.splitlines()`: split at every line boundary (`\r\n` counts as
one boundary), with no trailing empty line. -/
def splitLinesAux (acc : List Char) : List Char → List (List Char)
  | [] => if acc.isEmpty then [] else [acc.reverse]
  | '\r' :: '\n' :: rest => acc.reverse :: splitLinesAux [] rest
  | '\r' :: rest => acc.reverse :: splitLinesAux [] rest
  | c :: rest =>
    if lineSep c then acc.reverse :: splitLinesAux [] rest
    else splitLinesAux (c :: acc) rest

def pySplitLines (s : String) : List String :=
  (splitLinesAux [] s.data).map (fun l => ⟨l⟩)

/-- `re.sub(r"\*+", "", l)`: replacing every maximal run of `*` with the
empty string removes exactly every `*` character. -/
def stripStars (s : String) : String := ⟨s.data.filter (fun c => !(c == '*'))⟩

/-- Python `l.split(":", 1)` on a character list: `none` when `l` has no
colon (the split returns the one-element list `[l]`), otherwise the parts
before and after the first colon. -/
def splitColon1 (l : List Char) : Option (List Char × List Char) :=
  match l.dropWhile (fun c => !(c == ':')) with
  | [] => none
  | _ :: after => some (l.takeWhile (fun c => !(c == ':')), after)

/-- The three `gemini_output` sections filled by the parsing loop. -/
inductive SectionKey where
  | overallImpression
  | positiveFeedbacks
  | negativeFeedbacks
  deriving DecidableEq

/-- Parser state: `current_key` plus the accumulated text of the three
sections (all initialized to `""` before the loop, src/Full_Code.py lines
106-109). -/
structure GemState where
  current_key : Option SectionKey
  overallImpression : String
  positiveFeedbacks : String
  negativeFeedbacks : String
  deriving DecidableEq

def initGemState : GemState := ⟨none, "", "", ""⟩

/-- `gemini_output[k] += txt`. -/
def appendSection (st : GemState) (k : SectionKey) (txt : String) : GemState :=
  match k with
  | .overallImpression =>
    { st with overallImpression := st.overallImpression ++ txt }
  | .positiveFeedbacks =>
    { st with positiveFeedbacks := st.positiveFeedbacks ++ txt }
  | .negativeFeedbacks =>
    { st with negativeFeedbacks := st.negativeFeedbacks ++ txt }

/-- One iteration of the parsing loop of `analyze_reviews_with_gemini`
(src/Full_Code.py lines 109-132 = src/fullcode_AF.py lines 103-129). -/
def gemStep (st : GemState) (line : String) : GemState :=
  let l := pyStrip line
  if l = "" then st
  else if listContains "overall impression".data (pyLower l).data then
    let st1 :=
      match splitColon1 (stripStars l).data with
      | none => st
      | some (_, after) =>
        if pyStrip ⟨after⟩ = "" then st
        else appendSection st .overallImpression (pyStrip ⟨after⟩ ++ "\n\n")
    { st1 with current_key := some SectionKey.overallImpression }
  else if listContains "positive".data (pyLower l).data then
    { st with current_key := some SectionKey.positiveFeedbacks }
  else if listContains "negative".data (pyLower l).data then
    { st with current_key := some SectionKey.negativeFeedbacks }
  else
    match st.current_key with
    | none => st
    | some k =>
      let clean_line := pyStrip (stripStars l)
      if clean_line = "" then st
      else if k ≠ SectionKey.overallImpression ∧
          ¬"-".data.isPrefixOf clean_line.data then
        appendSection st k ("- " ++ clean_line ++ "\n\n")
      else
        appendSection st k (clean_line ++ "\n\n")

def gemRun (st : GemState) (lines : List String) : GemState :=
  lines.foldl gemStep st

/-- The whole parsing pass of `analyze_reviews_with_gemini` over the Gemini
response text. -/
def parseGeminiOutput (output : String) : GemState :=
  gemRun initGemState (pySplitLines output)

/-- `"overall impression" in line.strip().lower()`. -/
def hasKwOI (line : String) : Bool :=
  listContains "overall impression".data (pyLower (pyStrip line)).data

/-- `"positive" in line.strip().lower()`. -/
def hasKwPos (line : String) : Bool :=
  listContains "positive".data (pyLower (pyStrip line)).data

/-- `"negative" in line.strip().lower()`. -/
def hasKwNeg (line : String) : Bool :=
  listContains "negative".data (pyLower (pyStrip line)).data

/-- A line triggering none of the three keyword transitions. -/
def inertLine (line : String) : Prop :=
  hasKwOI line = false ∧ hasKwPos line = false ∧ hasKwNeg line = false

/-- `clean_line = re.sub(r"\*+", "", l).strip()` for `l = line.strip()`. -/
def cleanLine (line : String) : String := pyStrip (stripStars (pyStrip line))

/-- What one inert content line adds to the active section `k`: nothing when
it cleans to empty; otherwise the cleaned line, bullet-prefixed when the
section is positive/negative and the line does not already start with `-`,
and terminated by a blank line. -/
def contentPiece (k : SectionKey) (line : String) : String :=
  if cleanLine line = "" then ""
  else if k ≠ SectionKey.overallImpression ∧
      ¬"-".data.isPrefixOf (cleanLine line).data then
    "- " ++ cleanLine line ++ "\n\n"
  else cleanLine line ++ "\n\n"

def strJoin : List String → String
  | [] => ""
  | s :: rest => s ++ strJoin rest

/-- Everything a run of inert content lines adds to the active section. -/
def sectionBody (k : SectionKey) (c : List String) : String :=
  strJoin (c.map (contentPiece k))

/-- What an "overall impression" header line itself contributes: the stripped
text after the first colon of the asterisk-stripped line, when non-empty. -/
def headerTail (line : String) : String :=
  match splitColon1 (stripStars (pyStrip line)).data with
  | none => ""
  | some (_, after) =>
    if pyStrip ⟨after⟩ = "" then "" else pyStrip ⟨after⟩ ++ "\n\n"

/-! ## Theorems -/

theorem pyStripList_head_not {l : List Char} (w : l.dropWhile pyWs ≠ []) :
    pyWs ((l.dropWhile pyWs).head w) = false := by
  have := List.head_dropWhile_not pyWs l w
  simpa using this

/-- Stripping is idempotent on lists of characters. -/
theorem pyStripList_idem (l : List Char) :
    pyStripList (pyStripList l) = pyStripList l := by
  unfold pyStripList
  set A := l.dropWhile pyWs with hA
  -- the result of the inner strip is a prefix of `A`, whose head (if any)
  -- fails `pyWs`; hence the outer `dropWhile` does nothing
  have hpre : List.rdropWhile pyWs A <+: A := List.rdropWhile_prefix pyWs A
  have hdrop : (List.rdropWhile pyWs A).dropWhile pyWs = List.rdropWhile pyWs A := by
    cases hR : List.rdropWhile pyWs A with
    | nil => simp
    | cons x xs =>
      have hAne : A ≠ [] := by
        intro h
        rw [h] at hR
        simp [List.rdropWhile_nil] at hR
      have h2 : A.head? = some x := by
        obtain ⟨t, ht⟩ := hpre
        rw [hR] at ht
        rw [← ht]
        rfl
      have hxhead : x = A.head hAne :=
        Option.some.inj (h2.symm.trans (List.head?_eq_head hAne))
      have hx : pyWs x = false := by
        rw [hxhead]
        exact pyStripList_head_not hAne
      rw [List.dropWhile_cons_of_neg (by simp [hx])]
  rw [hdrop, List.rdropWhile_idempotent]

theorem mem_of_mem_pyStripList {c : Char} {l : List Char}
    (h : c ∈ pyStripList l) : c ∈ l := by
  unfold pyStripList at h
  have h1 : c ∈ l.dropWhile pyWs :=
    (List.IsPrefix.sublist (List.rdropWhile_prefix pyWs _)).mem h
  exact (List.IsSuffix.sublist (List.dropWhile_suffix pyWs)).mem h1

/-- Kept characters have code points in a fixed finite set of ranges. -/
theorem keepChar_cases {c : Char} (h : keepChar c = true) :
    (65 ≤ c.toNat ∧ c.toNat ≤ 90) ∨ (97 ≤ c.toNat ∧ c.toNat ≤ 122) ∨
      (48 ≤ c.toNat ∧ c.toNat ≤ 57) ∨ c.toNat ∈ pyWsCodes := by
  simp only [keepChar, Bool.or_eq_true, Bool.and_eq_true, decide_eq_true_eq,
    pyWs] at h
  tauto

theorem keepChar_of_cases {c : Char}
    (h : (65 ≤ c.toNat ∧ c.toNat ≤ 90) ∨ (97 ≤ c.toNat ∧ c.toNat ≤ 122) ∨
      (48 ≤ c.toNat ∧ c.toNat ≤ 57) ∨ c.toNat ∈ pyWsCodes) :
    keepChar c = true := by
  simp only [keepChar, Bool.or_eq_true, Bool.and_eq_true, decide_eq_true_eq,
    pyWs]
  tauto

theorem char_ofNat_toNat_shift {n : Nat} (h65 : 65 ≤ n) (h90 : n ≤ 90) :
    (Char.ofNat (n + 32)).toNat = n + 32 := by
  interval_cases n <;> decide

theorem pyLowerChar_of_upper {c : Char} (h : 65 ≤ c.toNat ∧ c.toNat ≤ 90) :
    pyLowerChar c = Char.ofNat (c.toNat + 32) := by
  simp only [pyLowerChar]
  rw [if_pos (by simp [h.1, h.2])]

theorem pyLowerChar_of_not_upper {c : Char} (h : ¬(65 ≤ c.toNat ∧ c.toNat ≤ 90)) :
    pyLowerChar c = c := by
  simp only [pyLowerChar]
  rw [if_neg (by simp only [Bool.and_eq_true, decide_eq_true_eq]; exact h)]

/-- Characters kept by the substitution stay kept after lowering, and
lowering a lowered character changes nothing. -/
theorem pyLowerChar_stable {c : Char} (h : keepChar c = true) :
    keepChar (pyLowerChar c) = true ∧ pyLowerChar (pyLowerChar c) = pyLowerChar c := by
  by_cases hu : 65 ≤ c.toNat ∧ c.toNat ≤ 90
  · have hl : pyLowerChar c = Char.ofNat (c.toNat + 32) := pyLowerChar_of_upper hu
    have htn : (pyLowerChar c).toNat = c.toNat + 32 := by
      rw [hl]; exact char_ofNat_toNat_shift hu.1 hu.2
    have hrange : 97 ≤ (pyLowerChar c).toNat ∧ (pyLowerChar c).toNat ≤ 122 := by
      omega
    exact ⟨keepChar_of_cases (Or.inr (Or.inl hrange)),
      pyLowerChar_of_not_upper (by omega)⟩
  · have hid : pyLowerChar c = c := pyLowerChar_of_not_upper hu
    rw [hid]
    exact ⟨h, hid⟩

theorem clean_text_eq_mk (s : String) :
    clean_text s = ⟨pyStripList ((s.data.filter keepChar).map pyLowerChar)⟩ := rfl

/-- C9. Normalization is idempotent: `clean_text (clean_text s) = clean_text s`
for every string `s`. -/
theorem c9_clean_text_idempotent (s : String) :
    clean_text (clean_text s) = clean_text s := by
  rw [clean_text_eq_mk s]
  set u : List Char := (s.data.filter keepChar).map pyLowerChar with hu
  have hmem : ∀ c ∈ pyStripList u, keepChar c = true ∧ pyLowerChar c = c := by
    intro c hc
    have hcu : c ∈ u := mem_of_mem_pyStripList hc
    rw [hu] at hcu
    obtain ⟨d, hd, hcd⟩ := List.mem_map.mp hcu
    have hkd : keepChar d = true := (List.mem_filter.mp hd).2
    have := pyLowerChar_stable hkd
    rw [hcd] at this
    exact ⟨this.1, this.2⟩
  show pyStrip ⟨((pyStripList u).filter keepChar).map pyLowerChar⟩ = _
  have hfilter : (pyStripList u).filter keepChar = pyStripList u :=
    List.filter_eq_self.mpr (fun a ha => (hmem a ha).1)
  have hmap : (pyStripList u).map pyLowerChar = pyStripList u := by
    have h1 : (pyStripList u).map pyLowerChar = (pyStripList u).map id :=
      List.map_congr_left (fun a ha => (hmem a ha).2)
    rw [h1, List.map_id]
  rw [hfilter, hmap]
  show (⟨pyStripList (pyStripList u)⟩ : String) = _
  rw [pyStripList_idem]

/-- C3 counterexample. The spec's example fails on the code: `clean_text`
deletes punctuation instead of replacing it with whitespace, so
`clean_text "Great-Phone!!" = "greatphone"` while
`clean_text "great phone" = "great phone"`. -/
theorem c3_counterexample :
    ¬ (clean_text "Great-Phone!!" = clean_text "great phone") := by decide

/-- C3 (amended). Normalization is case- and punctuation-insensitive in the
sense that punctuation is deleted: `clean_text "Great-Phone!!"` and
`clean_text "greatphone"` return the identical string `"greatphone"`, whereas
`"great phone"` (whitespace is kept by the `\s` in the regex class) normalizes
to `"great phone"`. -/
theorem c3_amended :
    clean_text "Great-Phone!!" = clean_text "greatphone" ∧
      clean_text "Great-Phone!!" = "greatphone" ∧
      clean_text "great phone" = "great phone" := by decide

theorem listContains_spec (pat l : List Char) :
    listContains pat l = true ↔ pat <:+: l := by
  induction l with
  | nil =>
    simp [listContains, List.isEmpty_iff]
  | cons c rest ih =>
    simp only [listContains, Bool.or_eq_true, ih, List.infix_cons_iff]
    constructor
    · rintro (h | h)
      · exact Or.inl (List.isPrefixOf_iff_prefix.mp h)
      · exact Or.inr h
    · rintro (h | h)
      · exact Or.inl (List.isPrefixOf_iff_prefix.mpr h)
      · exact Or.inr h

/-- `List.find?` returns exactly the first element satisfying the predicate. -/
theorem find?_eq_some_first {α : Type} {p : α → Bool} {l : List α} {a : α} :
    l.find? p = some a ↔
      ∃ l₁ l₂, l = l₁ ++ a :: l₂ ∧ p a = true ∧ ∀ x ∈ l₁, p x = false := by
  induction l with
  | nil => simp
  | cons c rest ih =>
    by_cases hc : p c
    · rw [List.find?_cons_of_pos _ hc]
      constructor
      · rintro h
        cases h
        exact ⟨[], rest, rfl, hc, by simp⟩
      · rintro ⟨l₁, l₂, heq, hpa, hall⟩
        cases l₁ with
        | nil =>
          simp only [List.nil_append, List.cons.injEq] at heq
          rw [heq.1]
        | cons d ds =>
          simp only [List.cons_append, List.cons.injEq] at heq
          have hd := hall d (by simp)
          rw [← heq.1] at hd
          rw [hd] at hc
          simp at hc
    · rw [List.find?_cons_of_neg _ hc]
      rw [ih]
      constructor
      · rintro ⟨l₁, l₂, heq, hpa, hall⟩
        refine ⟨c :: l₁, l₂, by rw [heq]; rfl, hpa, ?_⟩
        intro x hx
        rcases List.mem_cons.mp hx with h | h
        · rw [h]; simpa using hc
        · exact hall x h
      · rintro ⟨l₁, l₂, heq, hpa, hall⟩
        cases l₁ with
        | nil =>
          simp only [List.nil_append, List.cons.injEq] at heq
          rw [← heq.1] at hpa
          exact absurd hpa hc
        | cons d ds =>
          simp only [List.cons_append, List.cons.injEq] at heq
          exact ⟨ds, l₂, heq.2, hpa, fun x hx => hall x (by simp [hx])⟩

/-- C2. The product matcher accepts exactly the first candidate, in document
order, whose normalized title contains the normalized query as a substring;
`"iphone 15"` matches `"Apple iPhone 15 (128GB)"` but not `"Apple iPhone 14"`;
when no candidate matches, the search phase reports failure and no scraping
occurs. -/
theorem c2_product_matcher :
    (∀ query title : String,
        titleMatches query title = true ↔
          (clean_text query).data <:+: (clean_text title).data) ∧
    (∀ (query : String) (titles : List String) (t : String),
        amazonMatch query titles = some t ↔
          ∃ pre post, titles = pre ++ t :: post ∧ titleMatches query t = true ∧
            ∀ t' ∈ pre, titleMatches query t' = false) ∧
    titleMatches "iphone 15" "Apple iPhone 15 (128GB)" = true ∧
    titleMatches "iphone 15" "Apple iPhone 14" = false ∧
    (∀ (query : String) (titles : List String),
        (∀ t ∈ titles, titleMatches query t = false) →
          amazonMatch query titles = none ∧
            submitSearchPhase query titles = .reportNoMatch) := by
  refine ⟨fun q t => listContains_spec _ _, fun q ts t => find?_eq_some_first,
    by decide, by decide, fun q ts h => ?_⟩
  have hnone : amazonMatch q ts = none := by
    apply List.find?_eq_none.mpr
    intro x hx
    simp [h x hx]
  refine ⟨hnone, ?_⟩
  unfold submitSearchPhase
  rw [hnone]

theorem c2_product_matcher_witness :
    amazonMatch "iphone 15" ["Apple iPhone 14", "Apple iPhone 15 (128GB)"] =
        some "Apple iPhone 15 (128GB)" ∧
      submitSearchPhase "iphone 15" ["Sony Headphones"] = .reportNoMatch :=
  ⟨(c2_product_matcher.2.1 "iphone 15" _ _).mpr
      ⟨["Apple iPhone 14"], [], rfl, by decide, by decide⟩,
    (c2_product_matcher.2.2.2.2 "iphone 15" ["Sony Headphones"] (by decide)).2⟩

/-- C10. A query that strips to a non-empty string passes the input check, but
if its normalization is empty, the empty string is a substring of every
normalized title, so the matcher accepts the first listed candidate that has a
title (for Flipkart, the first whose title attribute is non-empty), regardless
of the title's content. -/
theorem c10_empty_normalized_query (query : String)
    (hinput : pyStrip query ≠ "") (hnorm : clean_text query = "") :
    ∀ titles : List String,
      amazonMatch query titles = titles.head? ∧
        flipkartMatch query titles = titles.find? (fun t => !(t == "")) := by
  have hdata : (clean_text query).data = [] := by rw [hnorm]
  have hall : ∀ t, titleMatches query t = true := by
    intro t
    unfold titleMatches
    rw [hdata]
    cases (clean_text t).data <;> rfl
  intro titles
  constructor
  · cases titles with
    | nil => rfl
    | cons t ts => rw [amazonMatch, List.find?_cons_of_pos _ (hall t)]; rfl
  · unfold flipkartMatch
    have : (fun t => !(t == "") && titleMatches query t) = (fun t => !(t == "")) := by
      funext t
      rw [hall t]
      simp
    rw [this]

theorem c10_empty_normalized_query_witness :
    amazonMatch "!!!" ["Apple iPhone 14", "Boat Earbuds"] = some "Apple iPhone 14" ∧
      flipkartMatch "!!!" ["", "Boat Earbuds"] = some "Boat Earbuds" := by
  have h1 := c10_empty_normalized_query "!!!" (by decide) (by decide)
    ["Apple iPhone 14", "Boat Earbuds"]
  have h2 := c10_empty_normalized_query "!!!" (by decide) (by decide)
    ["", "Boat Earbuds"]
  exact ⟨h1.1.trans (by decide), h2.2.trans (by decide)⟩

theorem grab10_spec {l t : List Char} :
    grab10 l = some t ↔ asinToken t ∧ ∃ rest, l = t ++ rest := by
  unfold grab10
  constructor
  · intro h
    split at h
    · rename_i hcond
      cases h
      simp only [Bool.and_eq_true, beq_iff_eq, List.all_eq_true, decide_eq_true_eq] at hcond
      exact ⟨⟨by simpa using hcond.1, fun c hc => hcond.2 c hc⟩,
        l.drop 10, (List.take_append_drop 10 l).symm⟩
    · cases h
  · rintro ⟨⟨hlen, hall⟩, rest, rfl⟩
    have htake : (t ++ rest).take 10 = t := List.take_left' hlen
    rw [if_pos]
    · rw [htake]
    · rw [htake]
      simp only [Bool.and_eq_true, List.all_eq_true]
      exact ⟨by simp [hlen], fun c hc => hall c hc⟩

theorem matchDpGpAt_spec {s t : List Char} :
    matchDpGpAt s = some t ↔ dpTokenAt s t := by
  unfold matchDpGpAt
  constructor
  · intro h
    split at h
    · rename_i hdp
      obtain ⟨r, hr⟩ := List.isPrefixOf_iff_prefix.mp hdp
      obtain ⟨htok, rest, hrest⟩ := grab10_spec.mp h
      refine ⟨htok, Or.inl ⟨rest, ?_⟩⟩
      rw [← hr] at hrest ⊢
      have hdrop : List.drop 4 ("/dp/".data ++ r) = r := List.drop_left' (by decide)
      rw [hdrop] at hrest
      rw [hrest, List.append_assoc]
    · split at h
      · rename_i hgp
        obtain ⟨r, hr⟩ := List.isPrefixOf_iff_prefix.mp hgp
        obtain ⟨htok, rest, hrest⟩ := grab10_spec.mp h
        refine ⟨htok, Or.inr ⟨rest, ?_⟩⟩
        rw [← hr] at hrest ⊢
        have hdrop : List.drop 12 ("/gp/product/".data ++ r) = r :=
          List.drop_left' (by decide)
        rw [hdrop] at hrest
        rw [hrest, List.append_assoc]
      · cases h
  · rintro ⟨htok, hcase | hcase⟩
    · obtain ⟨rest, rfl⟩ := hcase
      have hassoc : "/dp/".data ++ t ++ rest = "/dp/".data ++ (t ++ rest) :=
        List.append_assoc _ _ _
      rw [hassoc]
      rw [if_pos (List.isPrefixOf_iff_prefix.mpr ⟨t ++ rest, rfl⟩)]
      have hdrop : List.drop 4 ("/dp/".data ++ (t ++ rest)) = t ++ rest :=
        List.drop_left' (by decide)
      rw [hdrop]
      exact grab10_spec.mpr ⟨htok, rest, rfl⟩
    · obtain ⟨rest, rfl⟩ := hcase
      have hassoc : "/gp/product/".data ++ t ++ rest =
          "/gp/product/".data ++ (t ++ rest) := List.append_assoc _ _ _
      rw [hassoc]
      have hnotdp : ("/dp/".data.isPrefixOf
          ("/gp/product/".data ++ (t ++ rest))) = false := by
        rw [Bool.eq_false_iff]
        intro hpre
        have h4 : List.take 4 ("/gp/product/".data ++ (t ++ rest)) = "/dp/".data :=
          (List.prefix_iff_eq_take.mp (List.isPrefixOf_iff_prefix.mp hpre)).symm
        have hgp4 : List.take 4 ("/gp/product/".data ++ (t ++ rest)) = "/gp/".data := by
          have hsplit : "/gp/product/".data ++ (t ++ rest) =
              "/gp/".data ++ ("product/".data ++ (t ++ rest)) := by
            simp [List.append_assoc]
          rw [hsplit, List.take_append_of_le_length (by decide)]
          decide
        exact absurd (h4.symm.trans hgp4) (by decide)
      rw [hnotdp]
      simp only [Bool.false_eq_true, if_false]
      rw [if_pos (List.isPrefixOf_iff_prefix.mpr ⟨t ++ rest, rfl⟩)]
      have hdrop : List.drop 12 ("/gp/product/".data ++ (t ++ rest)) = t ++ rest :=
        List.drop_left' (by decide)
      rw [hdrop]
      exact grab10_spec.mpr ⟨htok, rest, rfl⟩

theorem matchAsinEqAt_spec {s t : List Char} :
    matchAsinEqAt s = some t ↔ asinParamAt s t := by
  unfold matchAsinEqAt
  constructor
  · intro h
    split at h
    · rename_i hpre
      obtain ⟨r, hr⟩ := List.isPrefixOf_iff_prefix.mp hpre
      obtain ⟨htok, rest, hrest⟩ := grab10_spec.mp h
      refine ⟨htok, rest, ?_⟩
      rw [← hr] at hrest ⊢
      have hdrop : List.drop 5 ("asin=".data ++ r) = r := List.drop_left' (by decide)
      rw [hdrop] at hrest
      rw [hrest, List.append_assoc]
    · cases h
  · rintro ⟨htok, rest, rfl⟩
    have hassoc : "asin=".data ++ t ++ rest = "asin=".data ++ (t ++ rest) :=
      List.append_assoc _ _ _
    rw [hassoc]
    rw [if_pos (List.isPrefixOf_iff_prefix.mpr ⟨t ++ rest, rfl⟩)]
    have hdrop : List.drop 5 ("asin=".data ++ (t ++ rest)) = t ++ rest :=
      List.drop_left' (by decide)
    rw [hdrop]
    exact grab10_spec.mpr ⟨htok, rest, rfl⟩

theorem reSearch_eq_none {f : List Char → Option (List Char)} {l : List Char} :
    reSearch f l = none ↔ ∀ s, s <:+ l → f s = none := by
  induction l with
  | nil =>
    simp only [reSearch]
    constructor
    · intro h s hs
      rw [List.suffix_nil.mp hs]
      exact h
    · intro h
      exact h [] List.suffix_rfl
  | cons c rest ih =>
    simp only [reSearch]
    cases hf : f (c :: rest) with
    | some t =>
      simp only []
      constructor
      · intro h
        cases h
      · intro h
        rw [h (c :: rest) List.suffix_rfl] at hf
        cases hf
    | none =>
      simp only [ih]
      constructor
      · intro h s hs
        rcases List.suffix_cons_iff.mp hs with rfl | hs'
        · exact hf
        · exact h s hs'
      · intro h s hs
        exact h s (hs.trans (List.suffix_cons c rest))

theorem reSearch_eq_some {f : List Char → Option (List Char)} {l t : List Char} :
    reSearch f l = some t ↔
      ∃ s, s <:+ l ∧ f s = some t ∧
        ∀ s', s' <:+ l → s.length < s'.length → f s' = none := by
  induction l with
  | nil =>
    simp only [reSearch]
    constructor
    · intro h
      refine ⟨[], List.suffix_rfl, h, ?_⟩
      intro s' hs' hlt
      rw [List.suffix_nil.mp hs'] at hlt
      omega
    · rintro ⟨s, hs, hfs, _⟩
      rw [List.suffix_nil.mp hs] at hfs
      exact hfs
  | cons c rest ih =>
    simp only [reSearch]
    cases hf : f (c :: rest) with
    | some u =>
      simp only [Option.some.injEq]
      constructor
      · rintro rfl
        refine ⟨c :: rest, List.suffix_rfl, hf, ?_⟩
        intro s' hs' hlt
        have := hs'.length_le
        omega
      · rintro ⟨s, hs, hfs, hmax⟩
        rcases List.suffix_cons_iff.mp hs with rfl | hs'
        · rw [hf] at hfs
          exact (Option.some.injEq _ _).mp hfs
        · have hlen : s.length < (c :: rest).length := by
            have := hs'.length_le
            simp only [List.length_cons]
            omega
          have := hmax (c :: rest) List.suffix_rfl hlen
          rw [this] at hf
          cases hf
    | none =>
      rw [ih]
      constructor
      · rintro ⟨s, hs, hfs, hmax⟩
        refine ⟨s, hs.trans (List.suffix_cons c rest), hfs, ?_⟩
        intro s' hs' hlt
        rcases List.suffix_cons_iff.mp hs' with rfl | hs''
        · exact hf
        · exact hmax s' hs'' hlt
      · rintro ⟨s, hs, hfs, hmax⟩
        have hsne : s ≠ c :: rest := by
          intro h
          rw [h, hf] at hfs
          cases hfs
        rcases List.suffix_cons_iff.mp hs with rfl | hs'
        · exact absurd rfl hsne
        · refine ⟨s, hs', hfs, ?_⟩
          intro s' hs'' hlt
          exact hmax s' (hs''.trans (List.suffix_cons c rest)) hlt

theorem mem_splitSlashAux {c : Char} {seg l acc : List Char}
    (hseg : seg ∈ splitSlashAux acc l) (hc : c ∈ seg) : c ∈ l ∨ c ∈ acc := by
  induction l generalizing acc with
  | nil =>
    simp only [splitSlashAux, List.mem_singleton] at hseg
    rw [hseg] at hc
    exact Or.inr (List.mem_reverse.mp hc)
  | cons d rest ih =>
    simp only [splitSlashAux] at hseg
    by_cases hd : d = '/'
    · rw [if_pos hd] at hseg
      rcases List.mem_cons.mp hseg with rfl | hseg'
      · exact Or.inr (List.mem_reverse.mp hc)
      · rcases ih hseg' with h | h
        · exact Or.inl (List.mem_cons_of_mem d h)
        · cases h
    · rw [if_neg hd] at hseg
      rcases ih hseg with h | h
      · exact Or.inl (List.mem_cons_of_mem d h)
      · rcases List.mem_cons.mp h with rfl | h'
        · exact Or.inl (List.mem_cons_self _ _)
        · exact Or.inr h'

theorem mem_splitSlash {c : Char} {seg l : List Char}
    (hseg : seg ∈ splitSlash l) (hc : c ∈ seg) : c ∈ l := by
  rcases mem_splitSlashAux hseg hc with h | h
  · exact h
  · cases h

/-- Without a newline in the segment, the `$`-before-trailing-newline case of
`re.match(r"^[A-Z0-9]{10}$", seg)` cannot fire, so the match means exactly
"bare ten-character token". -/
theorem fullAsinSeg_eq_asinToken {seg : List Char} (h : '\n' ∉ seg) :
    fullAsinSeg seg = true ↔ asinToken seg := by
  unfold fullAsinSeg asinToken
  constructor
  · intro hm
    rcases Bool.or_eq_true .. |>.mp hm with h1 | h2
    · simp only [Bool.and_eq_true, beq_iff_eq, List.all_eq_true] at h1
      exact ⟨h1.1, fun c hc => h1.2 c hc⟩
    · simp only [Bool.and_eq_true, beq_iff_eq] at h2
      obtain ⟨ys, hys⟩ := List.getLast?_eq_some_iff.mp h2.2
      exfalso
      apply h
      rw [hys]
      simp
  · rintro ⟨hlen, hall⟩
    apply Bool.or_eq_true .. |>.mpr
    left
    simp only [Bool.and_eq_true, beq_iff_eq, List.all_eq_true]
    exact ⟨hlen, fun c hc => hall c hc⟩

theorem reSearch_some_iff_leftmost {f : List Char → Option (List Char)}
    {P : List Char → List Char → Prop}
    (hf : ∀ s t, f s = some t ↔ P s t) {l t : List Char} :
    reSearch f l = some t ↔ leftmostMatch P l t := by
  rw [reSearch_eq_some]
  constructor
  · rintro ⟨s, hs, hfs, hmax⟩
    refine ⟨s, hs, (hf s t).mp hfs, ?_⟩
    intro s' t' hs' hlt hP
    have := hmax s' hs' hlt
    rw [(hf s' t').mpr hP] at this
    cases this
  · rintro ⟨s, hs, hP, hmax⟩
    refine ⟨s, hs, (hf s t).mpr hP, ?_⟩
    intro s' hs' hlt
    cases hfs' : f s' with
    | none => rfl
    | some u => exact absurd ((hf s' u).mp hfs') (hmax s' u hs' hlt)

theorem reSearch_none_iff_noMatch {f : List Char → Option (List Char)}
    {P : List Char → List Char → Prop}
    (hf : ∀ s t, f s = some t ↔ P s t) {l : List Char} :
    reSearch f l = none ↔ noMatch P l := by
  rw [reSearch_eq_none]
  constructor
  · intro h s t hs hP
    have := h s hs
    rw [(hf s t).mpr hP] at this
    cases this
  · intro h s hs
    cases hfs : f s with
    | none => rfl
    | some u => exact absurd ((hf s u).mp hfs) (h s u hs)

theorem dpTokenAt_func {s t t' : List Char}
    (h : dpTokenAt s t) (h' : dpTokenAt s t') : t = t' := by
  obtain ⟨⟨hlen, _⟩, hc⟩ := h
  obtain ⟨⟨hlen', _⟩, hc'⟩ := h'
  rcases hc with ⟨r, hr⟩ | ⟨r, hr⟩ <;> rcases hc' with ⟨r', hr'⟩ | ⟨r', hr'⟩
  · rw [hr, List.append_assoc] at hr'
    rw [List.append_assoc] at hr'
    have := List.append_inj_right hr' rfl
    exact (List.append_inj this (by omega)).1
  · rw [hr] at hr'
    rw [List.append_assoc, List.append_assoc] at hr'
    have h2 : List.take 2 ("/dp/".data ++ (t ++ r)) =
        List.take 2 ("/gp/product/".data ++ (t' ++ r')) := by rw [hr']
    rw [List.take_append_of_le_length (by decide),
      List.take_append_of_le_length (by decide)] at h2
    exact absurd h2 (by decide)
  · rw [hr] at hr'
    rw [List.append_assoc, List.append_assoc] at hr'
    have h2 : List.take 2 ("/gp/product/".data ++ (t ++ r)) =
        List.take 2 ("/dp/".data ++ (t' ++ r')) := by rw [hr']
    rw [List.take_append_of_le_length (by decide),
      List.take_append_of_le_length (by decide)] at h2
    exact absurd h2 (by decide)
  · rw [hr, List.append_assoc] at hr'
    rw [List.append_assoc] at hr'
    have := List.append_inj_right hr' rfl
    exact (List.append_inj this (by omega)).1

theorem asinParamAt_func {s t t' : List Char}
    (h : asinParamAt s t) (h' : asinParamAt s t') : t = t' := by
  obtain ⟨⟨hlen, _⟩, r, hr⟩ := h
  obtain ⟨⟨hlen', _⟩, r', hr'⟩ := h'
  rw [hr, List.append_assoc] at hr'
  rw [List.append_assoc] at hr'
  have := List.append_inj_right hr' rfl
  exact (List.append_inj this (by omega)).1

/-- Suffixes of the same list with equal lengths coincide. -/
theorem suffix_eq_of_length {s s' l : List α}
    (hs : s <:+ l) (hs' : s' <:+ l) (hlen : s.length = s'.length) : s = s' := by
  obtain ⟨a, ha⟩ := hs
  obtain ⟨a', ha'⟩ := hs'
  rw [← ha'] at ha
  have hal : a.length = a'.length := by
    have h1 := congrArg List.length ha
    simp only [List.length_append] at h1
    omega
  exact List.append_inj_right ha hal

theorem leftmostMatch_func {P : List Char → List Char → Prop}
    (hP : ∀ s t t', P s t → P s t' → t = t') {l t t' : List Char}
    (h : leftmostMatch P l t) (h' : leftmostMatch P l t') : t = t' := by
  obtain ⟨s, hs, hPs, hmax⟩ := h
  obtain ⟨s', hs', hPs', hmax'⟩ := h'
  have hlen : s.length = s'.length := by
    rcases Nat.lt_trichotomy s.length s'.length with hlt | heq | hgt
    · exact absurd hPs' (hmax s' t' hs' hlt)
    · exact heq
    · exact absurd hPs (hmax' s t hs hgt)
  rw [suffix_eq_of_length hs hs' hlen] at hPs
  exact hP s' t t' hPs hPs'

theorem leftmostMatch_not_noMatch {P : List Char → List Char → Prop}
    {l t : List Char} (h : leftmostMatch P l t) : ¬noMatch P l := by
  obtain ⟨s, hs, hPs, _⟩ := h
  intro hno
  exact hno s t hs hPs

/-- The reverse-segment scan, stated with the claim-side token predicate:
valid when the URL contains no newline. -/
theorem revSegFind_iff {l : List Char} (hnl : '\n' ∉ l) {t : List Char} :
    (splitSlash l).reverse.find? fullAsinSeg = some t ↔
      ∃ pre post, (splitSlash l).reverse = pre ++ t :: post ∧ asinToken t ∧
        ∀ x ∈ pre, ¬asinToken x := by
  have hseg : ∀ seg ∈ (splitSlash l).reverse, (fullAsinSeg seg = true ↔ asinToken seg) := by
    intro seg hsegmem
    apply fullAsinSeg_eq_asinToken
    intro hc
    exact hnl (mem_splitSlash (List.mem_reverse.mp hsegmem) hc)
  rw [find?_eq_some_first]
  constructor
  · rintro ⟨pre, post, heq, hpa, hall⟩
    refine ⟨pre, post, heq, ?_, ?_⟩
    · exact (hseg t (by rw [heq]; simp)).mp hpa
    · intro x hx hax
      have hxmem : x ∈ (splitSlash l).reverse := by
        rw [heq]
        exact List.mem_append_left _ hx
      have := (hseg x hxmem).mpr hax
      rw [hall x hx] at this
      cases this
  · rintro ⟨pre, post, heq, hpa, hall⟩
    refine ⟨pre, post, heq, (hseg t (by rw [heq]; simp)).mpr hpa, ?_⟩
    intro x hx
    have hxmem : x ∈ (splitSlash l).reverse := by
      rw [heq]
      exact List.mem_append_left _ hx
    rw [← Bool.not_eq_true]
    intro hfx
    exact hall x hx ((hseg x hxmem).mp hfx)

theorem strMk_inj {a b : List Char} : (⟨a⟩ : String) = ⟨b⟩ ↔ a = b :=
  ⟨fun h => by cases h; rfl, fun h => by rw [h]⟩

theorem extract_asin_eq_dp {url : String} {tok : List Char}
    (hA : reSearch matchDpGpAt url.data = some tok) :
    extract_asin url = some ⟨tok⟩ := by
  unfold extract_asin
  rw [hA]

theorem extract_asin_eq_param {url : String} {tok : List Char}
    (hA : reSearch matchDpGpAt url.data = none)
    (hB : reSearch matchAsinEqAt url.data = some tok) :
    extract_asin url = some ⟨tok⟩ := by
  unfold extract_asin
  rw [hA, hB]

theorem extract_asin_eq_seg {url : String} {seg : List Char}
    (hA : reSearch matchDpGpAt url.data = none)
    (hB : reSearch matchAsinEqAt url.data = none)
    (hC : (splitSlash url.data).reverse.find? fullAsinSeg = some seg) :
    extract_asin url = some ⟨seg⟩ := by
  unfold extract_asin
  rw [hA, hB, hC]

theorem extract_asin_eq_none {url : String}
    (hA : reSearch matchDpGpAt url.data = none)
    (hB : reSearch matchAsinEqAt url.data = none)
    (hC : (splitSlash url.data).reverse.find? fullAsinSeg = none) :
    extract_asin url = none := by
  unfold extract_asin
  rw [hA, hB, hC]

/-- C4. `extract_asin` tries, in order: (a) a ten-character uppercase
alphanumeric token right after a `/dp/` or `/gp/product/` path segment, at
the leftmost matching position; (b) the `asin=` query-parameter form of the
same token, at the leftmost matching position; (c) the `/`-separated segments
of the URL, scanned in reverse, for a bare ten-character token. It returns
the first match, returns `None` exactly when none of the three patterns
occurs anywhere in the URL, and in that case `scrape_amazon_reviews` aborts:
it returns no records and writes nothing. -/
theorem c4_extract_asin (url : String) (hurl : '\n' ∉ url.data) :
    (∀ asin : String,
      extract_asin url = some asin ↔
        (leftmostMatch dpTokenAt url.data asin.data ∨
          (noMatch dpTokenAt url.data ∧
            leftmostMatch asinParamAt url.data asin.data) ∨
          (noMatch dpTokenAt url.data ∧ noMatch asinParamAt url.data ∧
            ∃ pre post, (splitSlash url.data).reverse = pre ++ asin.data :: post ∧
              asinToken asin.data ∧ ∀ x ∈ pre, ¬asinToken x))) ∧
    (extract_asin url = none ↔
      (noMatch dpTokenAt url.data ∧ noMatch asinParamAt url.data ∧
        ∀ seg ∈ splitSlash url.data, ¬asinToken seg)) ∧
    (∀ pname rating total env maxPages, extract_asin url = none →
      scrape_amazon_reviews url pname rating total env maxPages =
        { returned := [], csvWritten := none }) := by
  refine ⟨?_, ?_, ?_⟩
  · intro asin
    cases asin with
    | mk adata =>
      cases hA : reSearch matchDpGpAt url.data with
      | some tok =>
        have hlm : leftmostMatch dpTokenAt url.data tok :=
          (reSearch_some_iff_leftmost (fun s t => matchDpGpAt_spec)).mp hA
        rw [extract_asin_eq_dp hA]
        simp only [Option.some.injEq, strMk_inj]
        constructor
        · intro h
          rw [← h]
          exact Or.inl hlm
        · rintro (h | ⟨hno, _⟩ | ⟨hno, _⟩)
          · exact @leftmostMatch_func dpTokenAt (fun s t u h1 h2 => dpTokenAt_func h1 h2) _ _ _ hlm h
          · exact absurd hno (leftmostMatch_not_noMatch hlm)
          · exact absurd hno (leftmostMatch_not_noMatch hlm)
      | none =>
        have hnoA : noMatch dpTokenAt url.data :=
          (reSearch_none_iff_noMatch (fun s t => matchDpGpAt_spec)).mp hA
        cases hB : reSearch matchAsinEqAt url.data with
        | some tok =>
          have hlm : leftmostMatch asinParamAt url.data tok :=
            (reSearch_some_iff_leftmost (fun s t => matchAsinEqAt_spec)).mp hB
          rw [extract_asin_eq_param hA hB]
          simp only [Option.some.injEq, strMk_inj]
          constructor
          · intro h
            rw [← h]
            exact Or.inr (Or.inl ⟨hnoA, hlm⟩)
          · rintro (h | ⟨_, h⟩ | ⟨_, hno, _⟩)
            · exact absurd hnoA (leftmostMatch_not_noMatch h)
            · exact @leftmostMatch_func asinParamAt (fun s t u h1 h2 => asinParamAt_func h1 h2) _ _ _ hlm h
            · exact absurd hno (leftmostMatch_not_noMatch hlm)
        | none =>
          have hnoB : noMatch asinParamAt url.data :=
            (reSearch_none_iff_noMatch (fun s t => matchAsinEqAt_spec)).mp hB
          cases hC : (splitSlash url.data).reverse.find? fullAsinSeg with
          | some seg =>
            have hfind := (revSegFind_iff hurl).mp hC
            rw [extract_asin_eq_seg hA hB hC]
            simp only [Option.some.injEq, strMk_inj]
            constructor
            · intro h
              rw [← h]
              exact Or.inr (Or.inr ⟨hnoA, hnoB, hfind⟩)
            · rintro (h | ⟨_, h⟩ | ⟨_, _, h⟩)
              · exact absurd hnoA (leftmostMatch_not_noMatch h)
              · exact absurd hnoB (leftmostMatch_not_noMatch h)
              · have h1 := (revSegFind_iff hurl).mpr h
                rw [hC] at h1
                exact (Option.some.injEq _ _).mp h1
          | none =>
            rw [extract_asin_eq_none hA hB hC]
            simp only [reduceCtorEq, false_iff]
            rintro (h | ⟨_, h⟩ | ⟨_, _, h⟩)
            · exact absurd hnoA (leftmostMatch_not_noMatch h)
            · exact absurd hnoB (leftmostMatch_not_noMatch h)
            · have h1 := (revSegFind_iff hurl).mpr h
              rw [hC] at h1
              cases h1
  · cases hA : reSearch matchDpGpAt url.data with
    | some tok =>
      have hlm : leftmostMatch dpTokenAt url.data tok :=
        (reSearch_some_iff_leftmost (fun s t => matchDpGpAt_spec)).mp hA
      rw [extract_asin_eq_dp hA]
      simp only [reduceCtorEq, false_iff]
      rintro ⟨hno, _⟩
      exact absurd hno (leftmostMatch_not_noMatch hlm)
    | none =>
      have hnoA : noMatch dpTokenAt url.data :=
        (reSearch_none_iff_noMatch (fun s t => matchDpGpAt_spec)).mp hA
      cases hB : reSearch matchAsinEqAt url.data with
      | some tok =>
        have hlm : leftmostMatch asinParamAt url.data tok :=
          (reSearch_some_iff_leftmost (fun s t => matchAsinEqAt_spec)).mp hB
        rw [extract_asin_eq_param hA hB]
        simp only [reduceCtorEq, false_iff]
        rintro ⟨_, hno, _⟩
        exact absurd hno (leftmostMatch_not_noMatch hlm)
      | none =>
        have hnoB : noMatch asinParamAt url.data :=
          (reSearch_none_iff_noMatch (fun s t => matchAsinEqAt_spec)).mp hB
        cases hC : (splitSlash url.data).reverse.find? fullAsinSeg with
        | some seg =>
          obtain ⟨pre, post, heq, htok, _⟩ := (revSegFind_iff hurl).mp hC
          rw [extract_asin_eq_seg hA hB hC]
          simp only [reduceCtorEq, false_iff]
          rintro ⟨_, _, hall⟩
          have hmem : seg ∈ splitSlash url.data := by
            have : seg ∈ (splitSlash url.data).reverse := by
              rw [heq]
              simp
            exact List.mem_reverse.mp this
          exact hall seg hmem htok
        | none =>
          rw [extract_asin_eq_none hA hB hC]
          simp only [true_iff]
          have hall := List.find?_eq_none.mp hC
          refine ⟨hnoA, hnoB, ?_⟩
          intro seg hseg htok
          have hsegrev : seg ∈ (splitSlash url.data).reverse :=
            List.mem_reverse.mpr hseg
          have hnl : '\n' ∉ seg := fun hc => hurl (mem_splitSlash hseg hc)
          exact (hall seg hsegrev) ((fullAsinSeg_eq_asinToken hnl).mpr htok)
  · intro pname rating total env maxPages hnone
    unfold scrape_amazon_reviews
    rw [hnone]

/-- C4 witness: the theorem instantiated at concrete URLs. -/
theorem c4_extract_asin_witness :
    noMatch dpTokenAt "https://example.com/gallery".data ∧
      noMatch asinParamAt "https://example.com/gallery".data ∧
      leftmostMatch dpTokenAt "https://www.amazon.in/dp/B0TESTASIN".data
        "B0TESTASIN".data := by
  have h1 := (c4_extract_asin "https://example.com/gallery" (by decide)).2.1
  have hnone : extract_asin "https://example.com/gallery" = none := by decide
  have h2 := (c4_extract_asin "https://www.amazon.in/dp/B0TESTASIN" (by decide)).1
    "B0TESTASIN"
  have hsome : extract_asin "https://www.amazon.in/dp/B0TESTASIN" =
      some "B0TESTASIN" := by decide
  refine ⟨(h1.mp hnone).1, (h1.mp hnone).2.1, ?_⟩
  have hdpwitness : dpTokenAt "/dp/B0TESTASIN".data "B0TESTASIN".data :=
    ⟨⟨by decide, by decide⟩, Or.inl ⟨[], by decide⟩⟩
  rcases h2.mp hsome with h | ⟨hno, _⟩ | ⟨hno, _, _⟩
  · exact h
  · exact absurd hdpwitness
      (hno "/dp/B0TESTASIN".data "B0TESTASIN".data (by decide))
  · exact absurd hdpwitness
      (hno "/dp/B0TESTASIN".data "B0TESTASIN".data (by decide))

theorem amazonPaginate_count_le (pname rating total : String)
    (env : Nat → ReviewPage) :
    ∀ fuel idx, (amazonPaginate pname rating total env fuel idx).2 ≤ fuel := by
  intro fuel
  induction fuel with
  | zero => intro idx; simp [amazonPaginate]
  | succ n ih =>
    intro idx
    simp only [amazonPaginate]
    by_cases hb : (env idx).blocks.isEmpty
    · rw [if_pos hb]
      omega
    · rw [if_neg hb]
      by_cases hn : (env idx).hasNext
      · rw [if_pos hn]
        have := ih (idx + 1)
        simp only []
        omega
      · rw [if_neg hn]
        omega

theorem amazonPaginate_count_full (pname rating total : String)
    (env : Nat → ReviewPage)
    (hfull : ∀ i, (env i).blocks ≠ [] ∧ (env i).hasNext = true) :
    ∀ fuel idx, 0 < fuel →
      (amazonPaginate pname rating total env fuel idx).2 = fuel := by
  intro fuel
  induction fuel with
  | zero => intro idx h; omega
  | succ n ih =>
    intro idx _
    simp only [amazonPaginate]
    have hb : (env idx).blocks.isEmpty = false := by
      rw [Bool.eq_false_iff]
      intro hcontra
      exact (hfull idx).1 (List.isEmpty_iff.mp hcontra)
    rw [if_neg (show ¬(env idx).blocks.isEmpty = true by simp [hb]),
      if_pos ((hfull idx).2)]
    cases n with
    | zero => rfl
    | succ m =>
      have := ih (idx + 1) (by omega)
      simp only []
      omega

/-- C7. The pagination loop (entered with `fuel = MAX_PAGES`) reads at most
`MAX_PAGES` pages; with non-empty pages and an always-present "next" control
it reads exactly `MAX_PAGES` pages and then halts anyway; it halts after a
single page when that page has no review blocks or no next control; so the
loop always terminates. -/
theorem c7_pagination_bounded (pname rating total : String)
    (env : Nat → ReviewPage) (maxPages : Nat) :
    ((amazonPaginate pname rating total env maxPages 0).2 ≤ maxPages) ∧
    ((∀ i, (env i).blocks ≠ [] ∧ (env i).hasNext = true) → 0 < maxPages →
      (amazonPaginate pname rating total env maxPages 0).2 = maxPages) ∧
    (0 < maxPages → (env 0).blocks = [] →
      (amazonPaginate pname rating total env maxPages 0).2 = 1) ∧
    (0 < maxPages → (env 0).blocks ≠ [] → (env 0).hasNext = false →
      (amazonPaginate pname rating total env maxPages 0).2 = 1) := by
  refine ⟨amazonPaginate_count_le pname rating total env maxPages 0,
    fun hfull hpos => amazonPaginate_count_full pname rating total env hfull maxPages 0 hpos,
    ?_, ?_⟩
  · intro hpos hempty
    cases maxPages with
    | zero => omega
    | succ n =>
      simp only [amazonPaginate]
      rw [if_pos (by rw [List.isEmpty_iff]; exact hempty)]
  · intro hpos hne hnonext
    cases maxPages with
    | zero => omega
    | succ n =>
      simp only [amazonPaginate]
      rw [if_neg (by rw [List.isEmpty_iff]; exact hne), if_neg (by simp [hnonext])]

/-- C7 witness: three pages of one block each with "next" always present
reads exactly 3 = MAX_PAGES pages; an empty first page reads one. -/
theorem c7_pagination_bounded_witness :
    (amazonPaginate "p" "4.3" "120"
        (fun _ => ⟨[⟨none, none, none, none⟩], true⟩) 3 0).2 = 3 ∧
      (amazonPaginate "p" "4.3" "120" (fun _ => ⟨[], true⟩) 5 0).2 = 1 :=
  ⟨(c7_pagination_bounded "p" "4.3" "120"
      (fun _ => ⟨[⟨none, none, none, none⟩], true⟩) 3).2.1
      (fun i => ⟨by simp, rfl⟩) (by omega),
    (c7_pagination_bounded "p" "4.3" "120" (fun _ => ⟨[], true⟩) 5).2.2.1
      (by omega) rfl⟩

/-- C5. When the pagination loop collects zero records — in particular when
the first page shows zero review blocks — `scrape_amazon_reviews` returns an
empty sequence and writes nothing to the CSV, and the Gemini summarization
step is skipped. -/
theorem c5_zero_reviews (url pname rating total : String)
    (env : Nat → ReviewPage) (maxPages : Nat) :
    ((amazonPaginate pname rating total env maxPages 0).1 = [] →
      (scrape_amazon_reviews url pname rating total env maxPages).returned = [] ∧
      (scrape_amazon_reviews url pname rating total env maxPages).csvWritten = none ∧
      geminiAnalysisRuns
        ((scrape_amazon_reviews url pname rating total env maxPages).returned) = false) ∧
    ((env 0).blocks = [] →
      (amazonPaginate pname rating total env maxPages 0).1 = []) := by
  constructor
  · intro hempty
    unfold scrape_amazon_reviews
    cases extract_asin url with
    | none => exact ⟨rfl, rfl, rfl⟩
    | some a => simp [hempty, geminiAnalysisRuns]
  · intro hempty
    cases maxPages with
    | zero => rfl
    | succ n =>
      simp only [amazonPaginate]
      rw [if_pos (by rw [List.isEmpty_iff]; exact hempty)]

/-- C5 witness: a run whose first page has no review blocks. -/
theorem c5_zero_reviews_witness :
    (scrape_amazon_reviews "https://www.amazon.in/dp/B0TESTASIN" "p" "4.3" "120"
        (fun _ => ⟨[], true⟩) 5).csvWritten = none ∧
      geminiAnalysisRuns
        ((scrape_amazon_reviews "https://www.amazon.in/dp/B0TESTASIN" "p" "4.3" "120"
          (fun _ => ⟨[], true⟩) 5).returned) = false := by
  have h := c5_zero_reviews "https://www.amazon.in/dp/B0TESTASIN" "p" "4.3" "120"
    (fun _ => ⟨[], true⟩) 5
  have hpag := h.2 rfl
  exact ⟨(h.1 hpag).2.1, (h.1 hpag).2.2⟩

/-- C8. A missing page element never fails the run: an absent overall-rating
or total-count element yields the literal `"N/A"`, and a review block whose
elements are all absent still produces a record, with the documented
placeholders (`"Anonymous"`, `"N/A"`, `"N/A"`, `"No Content"`). -/
theorem c8_missing_elements (pname rating total : String) (b : ReviewBlock)
    (env : Nat → ReviewPage) :
    overallRatingText none = Except.ok "N/A" ∧
    totalRatingsText none = "N/A" ∧
    (mkRecord pname rating total ⟨none, none, none, none⟩ =
      { product_name := pname, overall_rating := rating, total_ratings := total,
        reviewer_name := "Anonymous", star_rating := "N/A", review_date := "N/A",
        review_body := "No Content" }) ∧
    (∀ maxPages, 0 < maxPages → env 0 = { blocks := [b], hasNext := false } →
      (amazonPaginate pname rating total env maxPages 0).1 =
        [mkRecord pname rating total b]) := by
  refine ⟨rfl, rfl, rfl, ?_⟩
  intro maxPages hpos henv
  cases maxPages with
  | zero => omega
  | succ n =>
    simp only [amazonPaginate, henv]
    rfl

/-- C8 witness: the all-absent review block on a single page. -/
theorem c8_missing_elements_witness :
    (amazonPaginate "Phone X" "4.3" "120"
        (fun _ => ⟨[⟨none, none, none, none⟩], false⟩) 3 0).1 =
      [{ product_name := "Phone X", overall_rating := "4.3", total_ratings := "120",
         reviewer_name := "Anonymous", star_rating := "N/A", review_date := "N/A",
         review_body := "No Content" }] := by
  have h := c8_missing_elements "Phone X" "4.3" "120" ⟨none, none, none, none⟩
    (fun _ => ⟨[⟨none, none, none, none⟩], false⟩)
  rw [h.2.2.2 3 (by omega) rfl, h.2.2.1]

/-- C6. `call_gemini` always returns a string and never propagates a fault:
stripped standard output on exit status zero, an explanatory error string
derived from stderr on non-zero status, and an explanatory error string
derived from the exception when the invocation itself fails. -/
theorem c6_call_gemini (rc : Int) (stdout stderr e : String) :
    (rc = 0 → call_gemini (.ran rc stdout stderr) = pyStrip stdout) ∧
    (rc ≠ 0 → call_gemini (.ran rc stdout stderr) = "Error: " ++ pyStrip stderr) ∧
    call_gemini (.raised e) = "CLI call failed: " ++ e := by
  refine ⟨fun h => ?_, fun h => ?_, rfl⟩
  · simp only [call_gemini]
    rw [if_pos h]
  · simp only [call_gemini]
    rw [if_neg h]

/-- C6 witness: the three branches at concrete process outcomes. -/
theorem c6_call_gemini_witness :
    call_gemini (.ran 0 " summary text " " boom ") = "summary text" ∧
      call_gemini (.ran 1 " summary text " " boom ") = "Error: boom" ∧
      call_gemini (.raised "ENOENT") = "CLI call failed: ENOENT" := by
  have h := c6_call_gemini 1 " summary text " " boom " "ENOENT"
  have h0 := c6_call_gemini 0 " summary text " " boom " "ENOENT"
  refine ⟨(h0.1 rfl).trans (by decide), (h.2.1 (by decide)).trans (by decide), h.2.2⟩

theorem strExt {s t : String} (h : s.data = t.data) : s = t := by
  cases s
  cases t
  cases h
  rfl

theorem strData_append (s t : String) : (s ++ t).data = s.data ++ t.data := rfl

theorem strAppend_empty (s : String) : s ++ "" = s :=
  strExt (by rw [strData_append]; exact List.append_nil _)

theorem strAppend_assoc (a b c : String) : a ++ b ++ c = a ++ (b ++ c) :=
  strExt (by simp only [strData_append]; exact List.append_assoc _ _ _)

theorem strAppend_eq_empty {s t : String} : s ++ t = "" ↔ s = "" ∧ t = "" := by
  constructor
  · intro h
    have hd : s.data ++ t.data = [] := by
      rw [← strData_append, h]
    have h2 := List.append_eq_nil.mp hd
    exact ⟨strExt h2.1, strExt h2.2⟩
  · rintro ⟨rfl, rfl⟩
    rfl

theorem appendSection_current_key (st : GemState) (k : SectionKey) (t : String) :
    (appendSection st k t).current_key = st.current_key := by
  cases k <;> rfl

theorem appendSection_empty (st : GemState) (k : SectionKey) :
    appendSection st k "" = st := by
  cases st
  cases k <;> simp [appendSection, strAppend_empty]

theorem appendSection_append (st : GemState) (k : SectionKey) (a b : String) :
    appendSection (appendSection st k a) k b = appendSection st k (a ++ b) := by
  cases st
  cases k <;> simp [appendSection, strAppend_assoc]

theorem gemRun_append (st : GemState) (a b : List String) :
    gemRun st (a ++ b) = gemRun (gemRun st a) b := by
  unfold gemRun
  rw [List.foldl_append]

theorem gemRun_cons (st : GemState) (l : String) (rest : List String) :
    gemRun st (l :: rest) = gemRun (gemStep st l) rest := rfl

/-- A line whose strip is empty cannot contain a keyword. -/
theorem hasKw_of_strip_empty {line : String} (h : pyStrip line = "") :
    hasKwOI line = false ∧ hasKwPos line = false ∧ hasKwNeg line = false := by
  refine ⟨?_, ?_, ?_⟩ <;>
    simp only [hasKwOI, hasKwPos, hasKwNeg, h] <;> rfl

theorem strip_ne_empty_of_hasKwOI {line : String} (h : hasKwOI line = true) :
    pyStrip line ≠ "" := by
  intro hc
  rw [(hasKw_of_strip_empty hc).1] at h
  cases h

theorem strip_ne_empty_of_hasKwPos {line : String} (h : hasKwPos line = true) :
    pyStrip line ≠ "" := by
  intro hc
  rw [(hasKw_of_strip_empty hc).2.1] at h
  cases h

theorem strip_ne_empty_of_hasKwNeg {line : String} (h : hasKwNeg line = true) :
    pyStrip line ≠ "" := by
  intro hc
  rw [(hasKw_of_strip_empty hc).2.2] at h
  cases h

theorem gemStep_inert_none {st : GemState} {line : String}
    (h : st.current_key = none) (hint : inertLine line) :
    gemStep st line = st := by
  obtain ⟨h1, h2, h3⟩ := hint
  have h1' : listContains "overall impression".data (pyLower (pyStrip line)).data = false := h1
  have h2' : listContains "positive".data (pyLower (pyStrip line)).data = false := h2
  have h3' : listContains "negative".data (pyLower (pyStrip line)).data = false := h3
  simp only [gemStep, h1', h2', h3', Bool.false_eq_true, if_false, h]
  split <;> rfl

theorem gemStep_inert_some {st : GemState} {line : String} {k : SectionKey}
    (h : st.current_key = some k) (hint : inertLine line) :
    gemStep st line = appendSection st k (contentPiece k line) := by
  obtain ⟨h1, h2, h3⟩ := hint
  have h1' : listContains "overall impression".data (pyLower (pyStrip line)).data = false := h1
  have h2' : listContains "positive".data (pyLower (pyStrip line)).data = false := h2
  have h3' : listContains "negative".data (pyLower (pyStrip line)).data = false := h3
  by_cases hl : pyStrip line = ""
  · have hcl : cleanLine line = "" := by
      unfold cleanLine
      rw [hl]
      rfl
    simp only [gemStep, hl, if_pos, contentPiece, hcl, if_true]
    rw [appendSection_empty]
  · simp only [gemStep, h1', h2', h3', Bool.false_eq_true, if_false, if_neg hl, h]
    have hclean : pyStrip (stripStars (pyStrip line)) = cleanLine line := rfl
    simp only [hclean, contentPiece]
    split
    · rw [appendSection_empty]
    · split <;> rfl

theorem gemStep_header_oi {st : GemState} {line : String}
    (h : hasKwOI line = true) :
    gemStep st line =
      { current_key := some SectionKey.overallImpression,
        overallImpression := st.overallImpression ++ headerTail line,
        positiveFeedbacks := st.positiveFeedbacks,
        negativeFeedbacks := st.negativeFeedbacks } := by
  have hl : pyStrip line ≠ "" := strip_ne_empty_of_hasKwOI h
  have h1' : listContains "overall impression".data (pyLower (pyStrip line)).data = true := h
  simp only [gemStep, if_neg hl, h1', if_true, headerTail]
  cases st with
  | mk ck oi pos neg =>
    cases hsc : splitColon1 (stripStars (pyStrip line)).data with
    | none => simp [strAppend_empty]
    | some p =>
      cases p with
      | mk before after =>
        by_cases hta : pyStrip ⟨after⟩ = ""
        · simp [hta, strAppend_empty]
        · simp [hta, appendSection]

theorem gemStep_header_pos {st : GemState} {line : String}
    (h1 : hasKwOI line = false) (h2 : hasKwPos line = true) :
    gemStep st line = { st with current_key := some SectionKey.positiveFeedbacks } := by
  have hl : pyStrip line ≠ "" := strip_ne_empty_of_hasKwPos h2
  have h1' : listContains "overall impression".data (pyLower (pyStrip line)).data = false := h1
  have h2' : listContains "positive".data (pyLower (pyStrip line)).data = true := h2
  simp only [gemStep, if_neg hl, h1', h2', Bool.false_eq_true, if_false, if_true]

theorem gemStep_header_neg {st : GemState} {line : String}
    (h1 : hasKwOI line = false) (h2 : hasKwPos line = false)
    (h3 : hasKwNeg line = true) :
    gemStep st line = { st with current_key := some SectionKey.negativeFeedbacks } := by
  have hl : pyStrip line ≠ "" := strip_ne_empty_of_hasKwNeg h3
  have h1' : listContains "overall impression".data (pyLower (pyStrip line)).data = false := h1
  have h2' : listContains "positive".data (pyLower (pyStrip line)).data = false := h2
  have h3' : listContains "negative".data (pyLower (pyStrip line)).data = true := h3
  simp only [gemStep, if_neg hl, h1', h2', h3', Bool.false_eq_true, if_false, if_true]

theorem gemRun_inert_none {st : GemState} (h : st.current_key = none) :
    ∀ pre : List String, (∀ l ∈ pre, inertLine l) → gemRun st pre = st := by
  intro pre
  induction pre with
  | nil => intro _; rfl
  | cons l rest ih =>
    intro hall
    rw [gemRun_cons, gemStep_inert_none h (hall l (by simp))]
    exact ih (fun x hx => hall x (by simp [hx]))

theorem gemRun_inert_some {k : SectionKey} :
    ∀ (c : List String) (st : GemState), st.current_key = some k →
      (∀ l ∈ c, inertLine l) →
      gemRun st c = appendSection st k (sectionBody k c) := by
  intro c
  induction c with
  | nil =>
    intro st h _
    rw [show sectionBody k [] = "" from rfl, appendSection_empty]
    rfl
  | cons l rest ih =>
    intro st h hall
    rw [gemRun_cons, gemStep_inert_some h (hall l (by simp))]
    rw [ih (appendSection st k (contentPiece k l))
      (by rw [appendSection_current_key]; exact h)
      (fun x hx => hall x (by simp [hx]))]
    rw [appendSection_append]
    rfl

theorem strEmpty_append (s : String) : "" ++ s = s :=
  strExt (by rw [strData_append]; rfl)

theorem contentPiece_ne_empty {k : SectionKey} {line : String}
    (h : cleanLine line ≠ "") : contentPiece k line ≠ "" := by
  unfold contentPiece
  rw [if_neg h]
  split
  · intro hc
    exact absurd (strAppend_eq_empty.mp hc).2 (by decide)
  · intro hc
    exact absurd (strAppend_eq_empty.mp hc).2 (by decide)

theorem sectionBody_cons (k : SectionKey) (x : String) (rest : List String) :
    sectionBody k (x :: rest) = contentPiece k x ++ sectionBody k rest := rfl

theorem sectionBody_ne_empty {k : SectionKey} {c : List String}
    (h : ∃ l ∈ c, cleanLine l ≠ "") : sectionBody k c ≠ "" := by
  induction c with
  | nil =>
    rcases h with ⟨l, hl, _⟩
    cases hl
  | cons x rest ih =>
    rcases h with ⟨l, hl, hne⟩
    rw [sectionBody_cons]
    rcases List.mem_cons.mp hl with rfl | hl'
    · intro hc
      exact contentPiece_ne_empty hne (strAppend_eq_empty.mp hc).1
    · intro hc
      exact ih ⟨l, hl', hne⟩ (strAppend_eq_empty.mp hc).2

/-- C1 (amended). Suppose the summarizer response splits into lines
`pre ++ [hOI] ++ c1 ++ [hP] ++ c2 ++ [hN] ++ c3` where `hOI` contains
"overall impression" (case-insensitively), `hP` contains "positive" but not
"overall impression", `hN` contains "negative" but neither earlier keyword,
no other line contains any of the three keywords, each of `c2` and `c3` has a
line that is still non-empty after asterisk-stripping, and the impression
section receives text (from the colon tail of its header or from such a line
in `c1`). Then the parser produces exactly three sections: the impression
section is the header's colon tail followed by the cleaned `c1` lines, the
positive/negative sections consist of the cleaned `c2`/`c3` lines each forced
to start with `"- "` unless it already starts with `-`, captured lines have
all asterisks stripped, and all three sections are non-empty; header lines
contribute nothing else. -/
theorem c1_summary_sections (output : String) (pre c1 c2 c3 : List String)
    (hOI hP hN : String)
    (hsplit : pySplitLines output = pre ++ hOI :: (c1 ++ hP :: (c2 ++ hN :: c3)))
    (hpre : ∀ l ∈ pre, inertLine l)
    (hhOI : hasKwOI hOI = true)
    (hhPoi : hasKwOI hP = false) (hhP : hasKwPos hP = true)
    (hhNoi : hasKwOI hN = false) (hhNpos : hasKwPos hN = false)
    (hhN : hasKwNeg hN = true)
    (hc1 : ∀ l ∈ c1, inertLine l) (hc2 : ∀ l ∈ c2, inertLine l)
    (hc3 : ∀ l ∈ c3, inertLine l)
    (hne1 : headerTail hOI ≠ "" ∨ ∃ l ∈ c1, cleanLine l ≠ "")
    (hne2 : ∃ l ∈ c2, cleanLine l ≠ "") (hne3 : ∃ l ∈ c3, cleanLine l ≠ "") :
    (parseGeminiOutput output).overallImpression =
        headerTail hOI ++ sectionBody SectionKey.overallImpression c1 ∧
      (parseGeminiOutput output).positiveFeedbacks =
        sectionBody SectionKey.positiveFeedbacks c2 ∧
      (parseGeminiOutput output).negativeFeedbacks =
        sectionBody SectionKey.negativeFeedbacks c3 ∧
      (parseGeminiOutput output).overallImpression ≠ "" ∧
      (parseGeminiOutput output).positiveFeedbacks ≠ "" ∧
      (parseGeminiOutput output).negativeFeedbacks ≠ "" := by
  have h0 : gemRun initGemState pre = initGemState :=
    gemRun_inert_none rfl pre hpre
  have h1 : gemStep initGemState hOI =
      { current_key := some SectionKey.overallImpression,
        overallImpression := headerTail hOI,
        positiveFeedbacks := "", negativeFeedbacks := "" } :=
    (@gemStep_header_oi initGemState hOI hhOI).trans rfl
  have h2 : gemRun
      { current_key := some SectionKey.overallImpression,
        overallImpression := headerTail hOI,
        positiveFeedbacks := "", negativeFeedbacks := "" } c1 =
      { current_key := some SectionKey.overallImpression,
        overallImpression :=
          headerTail hOI ++ sectionBody SectionKey.overallImpression c1,
        positiveFeedbacks := "", negativeFeedbacks := "" } :=
    (@gemRun_inert_some SectionKey.overallImpression c1
      { current_key := some SectionKey.overallImpression,
        overallImpression := headerTail hOI,
        positiveFeedbacks := "", negativeFeedbacks := "" } rfl hc1).trans rfl
  have h3 : gemStep
      { current_key := some SectionKey.overallImpression,
        overallImpression :=
          headerTail hOI ++ sectionBody SectionKey.overallImpression c1,
        positiveFeedbacks := "", negativeFeedbacks := "" } hP =
      { current_key := some SectionKey.positiveFeedbacks,
        overallImpression :=
          headerTail hOI ++ sectionBody SectionKey.overallImpression c1,
        positiveFeedbacks := "", negativeFeedbacks := "" } :=
    (gemStep_header_pos hhPoi hhP).trans rfl
  have h4 : gemRun
      { current_key := some SectionKey.positiveFeedbacks,
        overallImpression :=
          headerTail hOI ++ sectionBody SectionKey.overallImpression c1,
        positiveFeedbacks := "", negativeFeedbacks := "" } c2 =
      { current_key := some SectionKey.positiveFeedbacks,
        overallImpression :=
          headerTail hOI ++ sectionBody SectionKey.overallImpression c1,
        positiveFeedbacks := sectionBody SectionKey.positiveFeedbacks c2,
        negativeFeedbacks := "" } :=
    (@gemRun_inert_some SectionKey.positiveFeedbacks c2
      { current_key := some SectionKey.positiveFeedbacks,
        overallImpression :=
          headerTail hOI ++ sectionBody SectionKey.overallImpression c1,
        positiveFeedbacks := "", negativeFeedbacks := "" } rfl hc2).trans rfl
  have h5 : gemStep
      { current_key := some SectionKey.positiveFeedbacks,
        overallImpression :=
          headerTail hOI ++ sectionBody SectionKey.overallImpression c1,
        positiveFeedbacks := sectionBody SectionKey.positiveFeedbacks c2,
        negativeFeedbacks := "" } hN =
      { current_key := some SectionKey.negativeFeedbacks,
        overallImpression :=
          headerTail hOI ++ sectionBody SectionKey.overallImpression c1,
        positiveFeedbacks := sectionBody SectionKey.positiveFeedbacks c2,
        negativeFeedbacks := "" } :=
    (gemStep_header_neg hhNoi hhNpos hhN).trans rfl
  have h6 : gemRun
      { current_key := some SectionKey.negativeFeedbacks,
        overallImpression :=
          headerTail hOI ++ sectionBody SectionKey.overallImpression c1,
        positiveFeedbacks := sectionBody SectionKey.positiveFeedbacks c2,
        negativeFeedbacks := "" } c3 =
      { current_key := some SectionKey.negativeFeedbacks,
        overallImpression :=
          headerTail hOI ++ sectionBody SectionKey.overallImpression c1,
        positiveFeedbacks := sectionBody SectionKey.positiveFeedbacks c2,
        negativeFeedbacks := sectionBody SectionKey.negativeFeedbacks c3 } :=
    (@gemRun_inert_some SectionKey.negativeFeedbacks c3
      { current_key := some SectionKey.negativeFeedbacks,
        overallImpression :=
          headerTail hOI ++ sectionBody SectionKey.overallImpression c1,
        positiveFeedbacks := sectionBody SectionKey.positiveFeedbacks c2,
        negativeFeedbacks := "" } rfl hc3).trans rfl
  have hfinal : parseGeminiOutput output =
      { current_key := some SectionKey.negativeFeedbacks,
        overallImpression :=
          headerTail hOI ++ sectionBody SectionKey.overallImpression c1,
        positiveFeedbacks := sectionBody SectionKey.positiveFeedbacks c2,
        negativeFeedbacks := sectionBody SectionKey.negativeFeedbacks c3 } := by
    unfold parseGeminiOutput
    rw [hsplit, gemRun_append, h0, gemRun_cons, h1, gemRun_append, h2,
      gemRun_cons, h3, gemRun_append, h4, gemRun_cons, h5, h6]
  rw [hfinal]
  refine ⟨rfl, rfl, rfl, ?_, ?_, ?_⟩
  · intro hc
    have h2' := strAppend_eq_empty.mp hc
    rcases hne1 with hne | hne
    · exact hne h2'.1
    · exact sectionBody_ne_empty hne h2'.2
  · exact sectionBody_ne_empty hne2
  · exact sectionBody_ne_empty hne3

/-- C1 counterexample to the claim as stated. The response below has the
three headers in order, each followed by a non-empty line, yet the parser
leaves the Overall-Impression section empty: the header's colon tail is empty
and the following line `"***"` strips to nothing once asterisks are removed. -/
theorem c1_counterexample :
    pySplitLines "Overall Impression:\n***\nPositive Feedbacks\ngood\nNegative Feedbacks\nbad" =
      ["Overall Impression:", "***", "Positive Feedbacks", "good",
        "Negative Feedbacks", "bad"] ∧
    (parseGeminiOutput
      "Overall Impression:\n***\nPositive Feedbacks\ngood\nNegative Feedbacks\nbad").overallImpression = "" ∧
    (parseGeminiOutput
      "Overall Impression:\n***\nPositive Feedbacks\ngood\nNegative Feedbacks\nbad").positiveFeedbacks = "- good\n\n" ∧
    (parseGeminiOutput
      "Overall Impression:\n***\nPositive Feedbacks\ngood\nNegative Feedbacks\nbad").negativeFeedbacks = "- bad\n\n" := by
  decide

/-- C1 witness: the amended theorem applied to a concrete well-formed
response. -/
theorem c1_summary_sections_witness :
    (parseGeminiOutput
        "Overall Impression: Good phone\n* value\nPositive Feedbacks\nfast\nNegative Feedbacks\npricey").overallImpression =
      "Good phone\n\nvalue\n\n" ∧
    (parseGeminiOutput
        "Overall Impression: Good phone\n* value\nPositive Feedbacks\nfast\nNegative Feedbacks\npricey").positiveFeedbacks =
      "- fast\n\n" ∧
    (parseGeminiOutput
        "Overall Impression: Good phone\n* value\nPositive Feedbacks\nfast\nNegative Feedbacks\npricey").negativeFeedbacks =
      "- pricey\n\n" := by
  have h := c1_summary_sections
    "Overall Impression: Good phone\n* value\nPositive Feedbacks\nfast\nNegative Feedbacks\npricey"
    [] ["* value"] ["fast"] ["pricey"]
    "Overall Impression: Good phone" "Positive Feedbacks" "Negative Feedbacks"
    (by decide)
    (by intro l hl; cases hl)
    (by decide) (by decide) (by decide) (by decide) (by decide) (by decide)
    (by intro l hl; rcases List.mem_singleton.mp hl with rfl; exact ⟨by decide, by decide, by decide⟩)
    (by intro l hl; rcases List.mem_singleton.mp hl with rfl; exact ⟨by decide, by decide, by decide⟩)
    (by intro l hl; rcases List.mem_singleton.mp hl with rfl; exact ⟨by decide, by decide, by decide⟩)
    (Or.inl (by decide))
    ⟨"fast", by decide, by decide⟩
    ⟨"pricey", by decide, by decide⟩
  refine ⟨h.1.trans (by decide), h.2.1.trans (by decide), h.2.2.1.trans (by decide)⟩

end PRA
